import Mathlib

/-!
Verification of the ContrastRobust-VO preprocessing core (ITMO / TMO pipeline).

This file is a shallow embedding of the mathematical core of
`src/preprocess/proposed_itmo.py`, `src/preprocess/proposed_tmo.py` and of the
TMO invocation in `src/preprocess/sdr_hdr_sdr_pipeline.py`, together with
proofs and refutations of the specification claims about that core.

Modelling conventions:
- Python float64 arithmetic is idealised as exact arithmetic in a linear
  ordered field: the purely rational parts of the code are stated over a
  generic `LinearOrderedField` (so they are executable over `ℚ`), and the
  parts that take real powers through `np.power` are stated over `ℝ`.
- All numpy image operations used by the code are elementwise, so pixel
  buffers are modelled per pixel; the frame-global quantities (histogram,
  region probabilities, solved curve slopes) are modelled on lists.
- `np.histogram` follows its documented semantics, cited in the source at
  `proposed_itmo.py` line 19: every bin is left-inclusive/right-exclusive
  except the rightmost bin, which also includes its right edge.
- In `proposed_itmo.py` lines 179-194 the solved curve coefficients are
  stored back into the Python variables `x1`, `x2` that previously held the
  segment breakpoints 0.1233 and 0.3975; consequently the piecewise curve at
  lines 200-204 branches on the overwritten values `s1 - 1` and `s2 - 1`.
  The embedding `itmoCurve` reproduces exactly this behaviour.
-/

section GenericDefs

variable {α : Type*} [LinearOrderedField α]

/-- Model of `np.clip(x, lo, hi)`. -/
def clipv (x lo hi : α) : α := min (max x lo) hi

/-- Tail of the bin-edge list built by `_histogram` (`proposed_itmo.py`
lines 17-18): the midpoints `c[:-1] + half` between adjacent centers,
followed by the outer edge `c[-1] + half[-1]`. -/
def midEdges : List α → List α
  | [c0, c1] => [(c0 + c1) / 2, c1 + (c1 - c0) / 2]
  | c0 :: c1 :: rest => (c0 + c1) / 2 :: midEdges (c1 :: rest)
  | _ => []

/-- Bin edges constructed by `_histogram` (`proposed_itmo.py` lines 11-18)
from bin centers: empty for no centers, a fixed half-width `w = 0.5` for a
single center, and otherwise the outer edge `c[0] - half[0]` followed by the
midpoints and the outer edge `c[-1] + half[-1]`. -/
def histEdges : List α → List α
  | [] => []
  | [c0] => [c0 - 0.5, c0 + 0.5]
  | c0 :: c1 :: rest => (c0 - (c1 - c0) / 2) :: midEdges (c0 :: c1 :: rest)

/-- Counts of `np.histogram(x, bins=edges)`: each bin is
left-inclusive/right-exclusive except the rightmost bin, which also includes
its right edge. -/
def histCounts (xs : List α) : List α → List ℕ
  | [e0, e1] => [xs.countP (fun x => decide (e0 ≤ x) && decide (x ≤ e1))]
  | e0 :: e1 :: e2 :: es =>
      xs.countP (fun x => decide (e0 ≤ x) && decide (x < e1)) ::
        histCounts xs (e1 :: e2 :: es)
  | _ => []

/-- Model of `_histogram(x, centers)` (`proposed_itmo.py` lines 3-21).
Counts are kept as natural numbers; the source casts them to float64, which
is lossless at image sizes. -/
def histogramModel (xs centers : List α) : List ℕ :=
  histCounts xs (histEdges centers)

/-- PQ-domain range constant `xmin = 0.0623` (`proposed_itmo.py` line 103). -/
def xmin : α := 0.0623

/-- PQ-domain range constant `xmax = 0.5081` (`proposed_itmo.py` line 104). -/
def xmax : α := 0.5081

/-- PQ-domain range constant `ymin = 0.0215` (`proposed_itmo.py` line 105). -/
def ymin : α := 0.0215

/-- PQ-domain range constant `ymax = 0.7518` (`proposed_itmo.py` line 106). -/
def ymax : α := 0.7518

/-- Histogram bin centers used by the ITMO for 8-bit input
(`proposed_itmo.py` lines 109-110): `np.linspace(xmin, xmax, 256)`. -/
def itmoCenters : List α :=
  (List.range 256).map (fun (i : ℕ) => xmin + (i : α) * ((xmax - xmin) / 255))

/-- Region probability masses `p1, p2, p3` of the ITMO
(`proposed_itmo.py` lines 128-143): slices `[:35]`, `[35:192]`, `[192:]` of
the histogram are divided by the total count and summed; an all-zero
histogram yields zero arrays of the same region sizes instead. -/
def itmoProbs (l : List α) : α × α × α :=
  let total := l.sum
  let q1 := if total = 0 then List.replicate 35 (0 : α)
            else (l.take 35).map (· / total)
  let q2 := if total = 0 then List.replicate (192 - 35) (0 : α)
            else ((l.drop 35).take (192 - 35)).map (· / total)
  let q3 := if total = 0 then List.replicate (l.length - 192) (0 : α)
            else (l.drop 192).map (· / total)
  (q1.sum, q2.sum, q3.sum)

/-- Closed-form slope solver of the ITMO (`proposed_itmo.py` lines 115-194):
from the region probabilities `p1, p2, p3` and the weights `wB, wC` it
derives the three slopes `s1, s2, s3` of the piecewise-linear expansion
curve.  The let-names mirror the Python locals; `X1`, `X2` are the values
the source stores back into the variables `x1`, `x2` at lines 179-188. -/
def itmoSlopes (p1 p2 p3 wB wC : α) : α × α × α :=
  let p_1 := (1 - p1) / 2
  let p_2 := (1 - p2) / 2
  let p_3 := (1 - p3) / 2
  let a1 := p_1 * 0.3073
  let a2 := p_2 * 11.5866
  let a3 := p_3 * 13.2019
  let b1 := p_1 * 3.2207
  let b2 := p_2 * 40.7965
  let b3 := p_3 * 28.9940
  let fc := 0.0809
  let fb := 13.6971
  let w1 := wC / fc
  let w2 := wB / fb
  let x1 := 0.1233
  let n1 := 35
  let n2 := 157
  let n3 := 64
  let delta1 := 0.0610
  let delta2 := 0.2742
  let delta3 := 0.1106
  let r := 0.2845
  let denom1 := w1 * delta1 * delta1 * p_1 + w2 * a1 - 2 * w2 * xmin * b1 +
    w2 * n1 * xmin * xmin + w2 * n2 * delta1 * delta1
  let denom2 := w1 * delta2 * delta2 * p_2 + w2 * a2 - 2 * w2 * x1 * b2 +
    w2 * n2 * x1 * x1
  let denom3 := w1 * delta3 * delta3 * p_3 + w2 * a3 - 2 * w2 * xmax * b3 +
    w2 * n3 * xmax * xmax
  let a := (w2 * n2 * delta1 * x1 - w2 * delta1 * b2) / denom1
  let b := (w2 * n1 * (ymin - xmin) * xmin - w2 * (ymin - xmin) * b1 -
    w2 * n2 * (ymin - xmin) * delta1) / denom1
  let c := (-delta1) / (2 * denom1)
  let d := (w2 * n2 * delta1 * x1 - w2 * delta1 * b2) / denom2
  let e := (w2 * n2 * (ymin - xmin) * x1 - w2 * (ymin - xmin) * b2) / denom2
  let f := (-delta2) / (2 * denom2)
  let g := (w2 * n3 * (ymax - xmax) * xmax - w2 * (ymax - xmax) * b3) / denom3
  let h := (-delta3) / (2 * denom3)
  let ad := 1 - a * d
  let X1 := (a * e + b) / ad
  let X2 := (b * d + e) / ad
  let c1lam := (a * f + c) / ad
  let c2lam := (c * d + f) / ad
  let lam := (r - (X1 * delta1 + X2 * delta2 + g * delta3)) /
    (c1lam * delta1 + c2lam * delta2 + h * delta3)
  (X1 + c1lam * lam + 1, X2 + c2lam * lam + 1, g + h * lam + 1)

/-- Piecewise-linear expansion curve applied by the ITMO
(`proposed_itmo.py` lines 192-204).  The breakpoints are the overwritten
variables `x1 = s1 - 1` and `x2 = s2 - 1` (see the module comment), and the
intercepts are `a1 = ymin - s1*xmin`, `a2 = (s1-s2)*x1 + a1`,
`a3 = ymax - s3*xmax`. -/
def itmoCurve (s1 s2 s3 y : α) : α :=
  let a1 := ymin - s1 * xmin
  let a2 := (s1 - s2) * (s1 - 1) + a1
  let a3 := ymax - s3 * xmax
  if y < s1 - 1 then s1 * y + a1
  else if y < s2 - 1 then s2 * y + a2
  else s3 * y + a3

/-- Fixed piecewise-linear compression curve of the TMO
(`proposed_tmo.py` lines 64-73): breakpoints `x1 = 0.1310`, `x2 = 0.4597`,
slopes `0.5570, 0.8339, 0.3787`, intercepts `0.0503, 0.0141, 0.2233`. -/
def tmoCurvePL (y : α) : α :=
  if y < 0.1310 then 0.5570 * y + 0.0503
  else if y < 0.4597 then 0.8339 * y + 0.0141
  else 0.3787 * y + 0.2233

/-- Representation maximum `maxValueY` (`proposed_itmo.py` line 57). -/
def maxValueY (d : ℕ) : α := 256 * 1 * 2 ^ (d - 8) - 1

/-- Representation minimum `minValueY` (`proposed_itmo.py` line 58). -/
def minValueY (d : ℕ) : α := 255 * 0 * 2 ^ (d - 8)

/-- Clamped and normalized code value (`proposed_itmo.py` lines 67-71):
clamp to `[minValueY, maxValueY]`, divide by the bit-depth scale
`2^(d-8)`, then divide by 255. -/
def img_normalized (d : ℕ) (v : α) : α :=
  clipv v (minValueY d) (maxValueY d) / 2 ^ (d - 8) / 255

end GenericDefs

/-! PQ transfer codec constants (SMPTE ST 2084 as written in the source;
`proposed_itmo.py` lines 49-54 and `proposed_tmo.py` lines 5-10 declare the
same values). -/

/-- PQ constant `l_max_PQ = 10000`. -/
def l_max_PQ : ℝ := 10000

/-- PQ constant `m_PQ = 78.8438`. -/
def m_PQ : ℝ := 78.8438

/-- PQ constant `n_PQ = 0.1593`. -/
def n_PQ : ℝ := 0.1593

/-- PQ constant `c1_PQ = 0.8359`. -/
def c1_PQ : ℝ := 0.8359

/-- PQ constant `c2_PQ = 18.8516`. -/
def c2_PQ : ℝ := 18.8516

/-- PQ constant `c3_PQ = 18.6875`. -/
def c3_PQ : ℝ := 18.6875

/-- Forward PQ encode `_to_pq` (`proposed_itmo.py` lines 91-95):
`t = max(L/l_max_PQ, 0)^n` and the result is `((c2*t + c1)/(c3*t + 1))^m`. -/
noncomputable def toPQ (L : ℝ) : ℝ :=
  let t := (max (L / l_max_PQ) 0) ^ n_PQ
  ((c2_PQ * t + c1_PQ) / (c3_PQ * t + 1)) ^ m_PQ

/-- Inverse PQ decode `_from_pq` (`proposed_tmo.py` lines 12-17):
`P_root = max(P,0)^(1/m)`, `num = max(P_root - c1, 0)`,
`den = c2 - c3*P_root`, result `l_max_PQ * max(num/den, 0)^(1/n)`. -/
noncomputable def fromPQ (P : ℝ) : ℝ :=
  let P_root := (max P 0) ^ (1 / m_PQ)
  let num := max (P_root - c1_PQ) 0
  let den := c2_PQ - c3_PQ * P_root
  l_max_PQ * (max (num / den) 0) ^ (1 / n_PQ)

/-! The ITMO pixel pipeline (`proposed_itmo.py` lines 46-234), per pixel,
with the frame statistics (the solved slopes) passed as parameters. -/

/-- SDR display floor `disp_Min = 0.1` nits (`proposed_itmo.py` line 61). -/
def disp_Min : ℝ := 0.1

/-- SDR display peak `disp_Max = 100` nits (`proposed_itmo.py` line 62). -/
def disp_Max : ℝ := 100

/-- HDR PQ floor `hDR_Min_PQ = 0.0215` (`proposed_itmo.py` line 63). -/
def hDR_Min_PQ : ℝ := 0.0215

/-- HDR PQ peak `hDR_Max_PQ = 0.7518` (`proposed_itmo.py` line 64). -/
def hDR_Max_PQ : ℝ := 0.7518

/-- Approximate linear light `img_light` (`proposed_itmo.py` line 74):
the normalized code value raised to the fixed power 2.2. -/
noncomputable def img_light (d : ℕ) (v : ℝ) : ℝ :=
  img_normalized d v ^ (2.2 : ℝ)

/-- BT.709 luma of the linear-light pixel (`proposed_itmo.py` line 82). -/
noncomputable def y_SDR (d : ℕ) (r g b : ℝ) : ℝ :=
  0.2126 * img_light d r + 0.7152 * img_light d g + 0.0722 * img_light d b

/-- Luma mapped to display light (`proposed_itmo.py` line 88). -/
noncomputable def L_disp (d : ℕ) (r g b : ℝ) : ℝ :=
  y_SDR d r g b * (disp_Max - disp_Min) + disp_Min

/-- Channel mapped to display light (`proposed_itmo.py` lines 85-87). -/
noncomputable def chan_SDR_Light (d : ℕ) (v : ℝ) : ℝ :=
  img_light d v * (disp_Max - disp_Min) + disp_Min

/-- PQ-encoded display luma `l_disp_PQ` (`proposed_itmo.py` line 97). -/
noncomputable def l_disp_PQ (d : ℕ) (r g b : ℝ) : ℝ :=
  toPQ (L_disp d r g b)

/-- PQ-encoded display channel (`proposed_itmo.py` lines 98-100). -/
noncomputable def chan_SDR_PQ (d : ℕ) (v : ℝ) : ℝ :=
  toPQ (chan_SDR_Light d v)

/-- Expanded luma clamped to the HDR PQ range (`proposed_itmo.py`
lines 200-207). -/
noncomputable def lhdr_PQ (s1 s2 s3 : ℝ) (d : ℕ) (r g b : ℝ) : ℝ :=
  clipv (itmoCurve s1 s2 s3 (l_disp_PQ d r g b)) ymin ymax

/-- Luma expansion ratio in PQ (`proposed_itmo.py` line 210). -/
noncomputable def l_ratio_PQ (s1 s2 s3 : ℝ) (d : ℕ) (r g b : ℝ) : ℝ :=
  lhdr_PQ s1 s2 s3 d r g b / l_disp_PQ d r g b

/-- Expanded PQ channel before clamping (`proposed_itmo.py` lines 213-215). -/
noncomputable def chan_HDR_PQ (s1 s2 s3 : ℝ) (d : ℕ) (r g b v : ℝ) : ℝ :=
  l_ratio_PQ s1 s2 s3 d r g b * chan_SDR_PQ d v

/-- Expanded PQ channel clamped to `[hDR_Min_PQ, hDR_Max_PQ]`
(`proposed_itmo.py` lines 218-220); this is the per-channel value
immediately before the gamut conversion matrix. -/
noncomputable def chan_HDR_PQ_cl (s1 s2 s3 : ℝ) (d : ℕ) (r g b v : ℝ) : ℝ :=
  clipv (chan_HDR_PQ s1 s2 s3 d r g b v) hDR_Min_PQ hDR_Max_PQ

/-- Final ITMO output pixel (`proposed_itmo.py` lines 224-234): the clamped
PQ channels pass the BT.709-to-BT.2020 matrix and are clipped to `[0, 1]`. -/
noncomputable def itmoPixel (s1 s2 s3 : ℝ) (d : ℕ) (r g b : ℝ) : ℝ × ℝ × ℝ :=
  let R := chan_HDR_PQ_cl s1 s2 s3 d r g b r
  let G := chan_HDR_PQ_cl s1 s2 s3 d r g b g
  let B := chan_HDR_PQ_cl s1 s2 s3 d r g b b
  (clipv (0.6274039 * R + 0.32928304 * G + 0.04331307 * B) 0 1,
   clipv (0.06909729 * R + 0.9195040 * G + 0.01136232 * B) 0 1,
   clipv (0.01639144 * R + 0.08801331 * G + 0.89559525 * B) 0 1)

/-- Histogram of the PQ luma samples over the 8-bit ITMO centers
(`proposed_itmo.py` lines 108-112). -/
noncomputable def n_light (samples : List ℝ) : List ℕ :=
  histogramModel samples itmoCenters

/-- Flattened PQ luma samples of a frame, `larray_disp_PQ`
(`proposed_itmo.py` line 111), for 8-bit input. -/
noncomputable def itmoSamples (frame : List (ℝ × ℝ × ℝ)) : List ℝ :=
  frame.map (fun p => l_disp_PQ 8 p.1 p.2.1 p.2.2)

/-! The TMO pixel pipeline (`proposed_tmo.py` lines 19-111), per pixel.
The PQ-range and linear-range parameters are fixed at their declared
default values; the curve selector, `alpha` and `gammaSDR` stay symbolic. -/

/-- TMO default parameter `hDRmin_PQ = 0.0215` (`proposed_tmo.py` line 22). -/
def hDRmin_PQ : ℝ := 0.0215

/-- TMO default parameter `hDRmax_PQ = 0.7518` (`proposed_tmo.py` line 23). -/
def hDRmax_PQ : ℝ := 0.7518

/-- TMO default parameter `sDRmin_PQ = 0.0623` (`proposed_tmo.py` line 24). -/
def sDRmin_PQ : ℝ := 0.0623

/-- TMO default parameter `sDRmax_PQ = 0.5081` (`proposed_tmo.py` line 25). -/
def sDRmax_PQ : ℝ := 0.5081

/-- TMO default parameter `sDRmin = 0.1` (`proposed_tmo.py` line 26). -/
def sDRmin : ℝ := 0.1

/-- TMO default parameter `sDRmax = 100` (`proposed_tmo.py` line 27). -/
def sDRmax : ℝ := 100

/-- Curve selector of the TMO (`mappingCurve` parameter of `proposed_tmo`). -/
inductive MappingCurveKind where
  | piecewiseLinear
  | gammaPower
deriving DecidableEq

/-- Fixed power compression curve of the TMO (`proposed_tmo.py`
lines 75-76): `y = 0.6012 * y_in^0.5902`. -/
noncomputable def tmoCurveGamma (y : ℝ) : ℝ := 0.6012 * y ^ (0.5902 : ℝ)

/-- Input channel clamped to the HDR PQ range (`proposed_tmo.py` line 54). -/
noncomputable def imgIn_HDR_PQc (v : ℝ) : ℝ := clipv v hDRmin_PQ hDRmax_PQ

/-- BT.2020 luma of the clamped input (`proposed_tmo.py` line 61). -/
noncomputable def y_HDR_PQ (r g b : ℝ) : ℝ :=
  0.2627 * imgIn_HDR_PQc r + 0.6779 * imgIn_HDR_PQc g + 0.0593 * imgIn_HDR_PQc b

/-- Compressed luma under the selected curve (`proposed_tmo.py`
lines 63-76). -/
noncomputable def y_SDR_PQ (k : MappingCurveKind) (r g b : ℝ) : ℝ :=
  match k with
  | .piecewiseLinear => tmoCurvePL (y_HDR_PQ r g b)
  | .gammaPower => tmoCurveGamma (y_HDR_PQ r g b)

/-- Per-pixel luma ratio (`proposed_tmo.py` line 79):
`np.divide(y_SDR_PQ, y_HDR_PQ, out=zeros, where=(y_HDR_PQ != 0))`. -/
noncomputable def ratio_y (ys yh : ℝ) : ℝ := if yh = 0 then 0 else ys / yh

/-- Uniform channel scale (`proposed_tmo.py` line 80): `alpha * ratio`. -/
noncomputable def tmoScale (alpha : ℝ) (k : MappingCurveKind) (r g b : ℝ) : ℝ :=
  alpha * ratio_y (y_SDR_PQ k r g b) (y_HDR_PQ r g b)

/-- Scaled channel before the SDR PQ clamp (`proposed_tmo.py`
lines 81-83): the uniform factor `alpha * ratio` times the clamped
input channel. -/
noncomputable def chan_scaled_PQ (alpha : ℝ) (k : MappingCurveKind) (r g b v : ℝ) : ℝ :=
  tmoScale alpha k r g b * imgIn_HDR_PQc v

/-- Scaled channel clamped to the SDR PQ range (`proposed_tmo.py`
lines 85-87). -/
noncomputable def chan_SDR_PQt (alpha : ℝ) (k : MappingCurveKind) (r g b v : ℝ) : ℝ :=
  clipv (chan_scaled_PQ alpha k r g b v) sDRmin_PQ sDRmax_PQ

/-- Channel decoded to linear light and clamped to the SDR linear range,
then normalized to `[0, 1]` (`proposed_tmo.py` lines 89-96). -/
noncomputable def chan_SDR_Normalized (alpha : ℝ) (k : MappingCurveKind) (r g b v : ℝ) : ℝ :=
  (clipv (fromPQ (chan_SDR_PQt alpha k r g b v)) sDRmin sDRmax - sDRmin) /
    (sDRmax - sDRmin)

/-- Final TMO output pixel (`proposed_tmo.py` lines 98-111): BT.2020 to
BT.709 matrix, clip to `[0, 1]`, gamma encode with exponent `1/gammaSDR`. -/
noncomputable def tmoPixel (k : MappingCurveKind) (alpha gammaSDR : ℝ) (r g b : ℝ) : ℝ × ℝ × ℝ :=
  let Rn := chan_SDR_Normalized alpha k r g b r
  let Gn := chan_SDR_Normalized alpha k r g b g
  let Bn := chan_SDR_Normalized alpha k r g b b
  let R7 := clipv (1.6605 * Rn - 0.5876 * Gn - 0.0728 * Bn) 0 1
  let G7 := clipv (-0.1246 * Rn + 1.1329 * Gn - 0.0083 * Bn) 0 1
  let B7 := clipv (-0.0182 * Rn - 0.1006 * Gn + 1.1187 * Bn) 0 1
  (R7 ^ (1 / gammaSDR), G7 ^ (1 / gammaSDR), B7 ^ (1 / gammaSDR))

/-! Keyword binding of the orchestrator's TMO call
(`sdr_hdr_sdr_pipeline.py` line 74 against `proposed_tmo.py` lines 19-30). -/

/-- Outcome of binding a Python call's keyword arguments. -/
inductive PyCallOutcome where
  | ok
  | typeError
deriving DecidableEq

/-- Parameter names declared by `proposed_tmo` (`proposed_tmo.py`
lines 19-30); the function declares no `**kwargs` catch-all. -/
def proposed_tmo_params : List String :=
  ["imgIn_HDR", "mappingCurve", "hDRmin_PQ", "hDRmax_PQ", "sDRmin_PQ",
   "sDRmax_PQ", "sDRmin", "sDRmax", "gammaSDR", "alpha"]

/-- Keyword names used by the orchestrator's TMO invocation
(`sdr_hdr_sdr_pipeline.py` line 74): `tmo(hdr_pq_2020, MappingCurve=...)`. -/
def pipeline_tmo_kwargs : List String := ["MappingCurve"]

/-- CPython keyword binding for a function without `**kwargs`: the call
raises `TypeError` unless every keyword names a declared parameter. -/
def bindKeywords (params kwargs : List String) : PyCallOutcome :=
  if kwargs.all (fun kw => params.contains kw) then .ok else .typeError

/-- Outcome of the TMO invocation inside `process_one_file`
(`sdr_hdr_sdr_pipeline.py` lines 73-74). -/
def process_one_file_tmo_call : PyCallOutcome :=
  bindKeywords proposed_tmo_params pipeline_tmo_kwargs

/-! Helper lemmas. -/

theorem clipv_le_hi {α : Type*} [LinearOrderedField α] (x lo hi : α) :
    clipv x lo hi ≤ hi := min_le_right _ _

theorem le_clipv_lo {α : Type*} [LinearOrderedField α] (x lo hi : α) (h : lo ≤ hi) :
    lo ≤ clipv x lo hi := le_min (le_max_right _ _) h

theorem sum_map_div {α : Type*} [LinearOrderedField α] (l : List α) (c : α) :
    (l.map (· / c)).sum = l.sum / c := by
  induction l with
  | nil => simp
  | cons a t ih => simp [ih, add_div]

/-! Claim C1. -/

/-- C1: for every linear-light value `x` in `[0, 10000]` nits, the inverse PQ
decode of the TMO is an exact left inverse of the forward PQ encode of the
ITMO: `fromPQ (toPQ x) = x` (exact equality in the real-number idealisation,
hence within floating-point tolerance in float64). -/
theorem pq_round_trip (x : ℝ) (hx0 : 0 ≤ x) (_hx1 : x ≤ 10000) :
    fromPQ (toPQ x) = x := by
  have hu : 0 ≤ x / 10000 := by positivity
  simp only [toPQ, fromPQ, l_max_PQ, m_PQ, n_PQ, c1_PQ, c2_PQ, c3_PQ]
  rw [max_eq_left hu]
  set t := (x / 10000) ^ (0.1593 : ℝ) with ht
  have ht0 : 0 ≤ t := Real.rpow_nonneg hu _
  have hden : 0 < 18.6875 * t + 1 := by positivity
  set A := (18.8516 * t + 0.8359) / (18.6875 * t + 1) with hA
  have hA0 : 0 < A := by
    refine div_pos ?_ hden
    nlinarith
  have hAm0 : 0 ≤ A ^ (78.8438 : ℝ) := Real.rpow_nonneg hA0.le _
  rw [max_eq_left hAm0]
  have hroot : (A ^ (78.8438 : ℝ)) ^ ((1 : ℝ) / 78.8438) = A := by
    rw [← Real.rpow_mul hA0.le, mul_one_div_cancel (by norm_num : (78.8438 : ℝ) ≠ 0),
      Real.rpow_one]
  rw [hroot]
  have hAc1 : (0.8359 : ℝ) ≤ A := by
    rw [hA, le_div_iff₀ hden]
    nlinarith
  rw [max_eq_left (sub_nonneg.2 hAc1)]
  have hfrac : (A - 0.8359) / (18.8516 - 18.6875 * A) = t := by
    have h1 : (18.8516 * t + 0.8359) / (18.6875 * t + 1) - 0.8359 =
        (18.8516 - 0.8359 * 18.6875) * t / (18.6875 * t + 1) := by
      field_simp
      ring
    have h2 : (18.8516 : ℝ) - 18.6875 * ((18.8516 * t + 0.8359) / (18.6875 * t + 1)) =
        (18.8516 - 0.8359 * 18.6875) / (18.6875 * t + 1) := by
      field_simp
      ring
    rw [hA, h1, h2, div_div_div_cancel_right₀ hden.ne',
      mul_div_cancel_left₀ _ (by norm_num : (18.8516 : ℝ) - 0.8359 * 18.6875 ≠ 0)]
  rw [hfrac, max_eq_left ht0, ht]
  rw [← Real.rpow_mul hu, mul_one_div_cancel (by norm_num : (0.1593 : ℝ) ≠ 0),
    Real.rpow_one]
  field_simp

/-- Witness for C1 at the concrete input `x = 100`. -/
theorem pq_round_trip_witness : fromPQ (toPQ 100) = 100 :=
  pq_round_trip 100 (by norm_num) (by norm_num)

/-! Claim C4. -/

/-- C4 counterexample: at bit depth 10, the code value 1023 survives the
clamp to the representable range `[0, 1023]`, but normalizes to
`1023 / 4 / 255 = 341/340 > 1`, so the normalized values do not all lie in
`[0, 1]`. -/
theorem normalize_range_cex :
    img_normalized 10 (1023 : ℝ) = 341 / 340 ∧ (1 : ℝ) < 341 / 340 := by
  constructor
  · norm_num [img_normalized, clipv, minValueY, maxValueY, max_def, min_def]
  · norm_num

/-- C4 amended: after the clamp, bit depth 8 normalizes into `[0, 1]`
exactly, while bit depth 10 normalizes into `[0, 341/340]` (`341/340 =
1023/1020 ≈ 1.0029`), because the representable maximum `2^10 - 1 = 1023`
exceeds the normalization full-scale `255 * 2^2 = 1020`. -/
theorem normalize_range_amended (v : ℝ) :
    (0 ≤ img_normalized 8 v ∧ img_normalized 8 v ≤ 1) ∧
    (0 ≤ img_normalized 10 v ∧ img_normalized 10 v ≤ 341 / 340) := by
  have h8lo := le_clipv_lo v (minValueY 8 : ℝ) (maxValueY 8) (by norm_num [minValueY, maxValueY])
  have h8hi := clipv_le_hi v (minValueY 8 : ℝ) (maxValueY 8)
  have h10lo := le_clipv_lo v (minValueY 10 : ℝ) (maxValueY 10) (by norm_num [minValueY, maxValueY])
  have h10hi := clipv_le_hi v (minValueY 10 : ℝ) (maxValueY 10)
  norm_num [minValueY, maxValueY] at h8lo h8hi h10lo h10hi
  simp only [img_normalized]
  norm_num [minValueY, maxValueY]
  refine ⟨⟨?_, ?_⟩, ?_, ?_⟩ <;> linarith

/-! Claim C6. -/

/-- C6: the orchestrator passes the curve selector with keyword name
`MappingCurve`, which is not among the parameter names `proposed_tmo`
declares (the declared name is `mappingCurve`), so the TMO invocation in
`process_one_file` raises `TypeError` instead of applying the requested
curve. -/
theorem tmo_kwarg_mismatch :
    process_one_file_tmo_call = PyCallOutcome.typeError ∧
    "MappingCurve" ∉ proposed_tmo_params ∧
    "mappingCurve" ∈ proposed_tmo_params := by
  refine ⟨rfl, ?_, ?_⟩ <;> decide

/-! Claim C7. -/

/-- C7: the ITMO's region probabilities are all exactly zero when the total
histogram count is zero (the defined fallback; no error is raised since the
division is never reached), and otherwise they are the region masses of bins
`[0,35)`, `[35,192)`, `[192,end)` divided by the total count. -/
theorem itmo_probs_spec (l : List ℝ) :
    itmoProbs l =
      if l.sum = 0 then (0, 0, 0)
      else ((l.take 35).sum / l.sum, ((l.drop 35).take 157).sum / l.sum,
        (l.drop 192).sum / l.sum) := by
  by_cases h : l.sum = 0
  · simp [itmoProbs, h]
  · simp only [itmoProbs, if_neg h]
    norm_num [← List.map_take, ← List.map_drop, sum_map_div]

/-! Claim C8. -/

/-- C8: the TMO's per-pixel luma ratio is `compressedLuma / originalLuma`
when the original luma is non-zero and exactly zero when it is zero, and all
three channels are scaled by the same factor `alpha * ratio` (the scaled
value of any channel `v` is `alpha * ratio` times the clamped input
channel). -/
theorem tmo_luma_scaling (ys yh : ℝ) :
    (yh ≠ 0 → ratio_y ys yh = ys / yh) ∧
    (yh = 0 → ratio_y ys yh = 0) ∧
    (∀ (alpha : ℝ) (k : MappingCurveKind) (r g b v : ℝ),
      chan_scaled_PQ alpha k r g b v =
        alpha * ratio_y (y_SDR_PQ k r g b) (y_HDR_PQ r g b) * imgIn_HDR_PQc v) := by
  refine ⟨fun h => ?_, fun h => ?_, fun alpha k r g b v => rfl⟩
  · simp [ratio_y, h]
  · simp [ratio_y, h]

/-- Witness for C8 at the concrete inputs `ys = 1, yh = 2` and `yh = 0`. -/
theorem tmo_luma_scaling_witness :
    ratio_y 1 2 = 1 / 2 ∧ ratio_y 1 0 = 0 :=
  ⟨(tmo_luma_scaling 1 2).1 (by norm_num), (tmo_luma_scaling 1 0).2.1 rfl⟩

/-! Claim C3. -/

/-- Exact slopes solved for the region probabilities `(0, 0, 1)` with
weights `wB = 0.01`, `wC = 2` (all three positive). -/
theorem itmoSlopes_cex_eq :
    itmoSlopes (0 : ℝ) 0 1 (1 / 100) 2 =
      (3903402555651370907254177691687 / 3088517228132899052576134886819,
       3267389685053439614330435824775 / 3088517228132899052576134886819,
       20280620690218253354510686537029 / 6177034456265798105152269773638) := by
  simp only [itmoSlopes, xmin, xmax, ymin, ymax, Prod.mk.injEq]
  norm_num

/-- Exact slopes solved for the all-black frame statistics: region
probabilities `(1, 0, 0)` with the default weights `wB = wC = 0.5`. -/
theorem itmoSlopes_allblack_eq :
    itmoSlopes (1 : ℝ) 0 0 (1 / 2) (1 / 2) =
      (78102251470185240809570861842 / 29709191585950031234261851555,
       42117255060579415972555828837 / 29709191585950031234261851555,
       97356852403745610512166353547 / 59418383171900062468523703110) := by
  simp only [itmoSlopes, xmin, xmax, ymin, ymax, Prod.mk.injEq]
  norm_num

/-- C3 counterexample: neither piecewise-linear curve is non-decreasing on
the valid PQ domain.  The TMO's fixed curve decreases across its second
breakpoint: `0.45969 < 0.4597` but `tmoCurvePL 0.45969 > tmoCurvePL 0.4597`.
The ITMO's applied curve decreases inside the valid luma domain
`[0.0623, 0.5081]` for the probability/weight combination `p = (0, 0, 1)`,
`wB = 0.01`, `wC = 2`, whose derived slopes are all positive:
its value at `0.27` is below its value at `0.26`. -/
theorem curve_monotonicity_cex :
    ((45969 / 100000 : ℝ) < 4597 / 10000 ∧
      tmoCurvePL ((4597 : ℝ) / 10000) < tmoCurvePL ((45969 : ℝ) / 100000)) ∧
    (0 < (itmoSlopes (0 : ℝ) 0 1 (1 / 100) 2).1 ∧
      0 < (itmoSlopes (0 : ℝ) 0 1 (1 / 100) 2).2.1 ∧
      0 < (itmoSlopes (0 : ℝ) 0 1 (1 / 100) 2).2.2 ∧
      (xmin : ℝ) ≤ 26 / 100 ∧ (26 / 100 : ℝ) < 27 / 100 ∧ (27 / 100 : ℝ) ≤ xmax ∧
      itmoCurve (itmoSlopes (0 : ℝ) 0 1 (1 / 100) 2).1
          (itmoSlopes (0 : ℝ) 0 1 (1 / 100) 2).2.1
          (itmoSlopes (0 : ℝ) 0 1 (1 / 100) 2).2.2 ((27 : ℝ) / 100) <
        itmoCurve (itmoSlopes (0 : ℝ) 0 1 (1 / 100) 2).1
          (itmoSlopes (0 : ℝ) 0 1 (1 / 100) 2).2.1
          (itmoSlopes (0 : ℝ) 0 1 (1 / 100) 2).2.2 ((26 : ℝ) / 100)) := by
  have h1 : tmoCurvePL ((4597 : ℝ) / 10000) = 0.3787 * (4597 / 10000) + 0.2233 := by
    rw [tmoCurvePL, if_neg (by norm_num), if_neg (by norm_num)]
  have h2 : tmoCurvePL ((45969 : ℝ) / 100000) = 0.8339 * (45969 / 100000) + 0.0141 := by
    rw [tmoCurvePL, if_neg (by norm_num), if_pos (by norm_num)]
  refine ⟨⟨by norm_num, ?_⟩, ?_⟩
  · rw [h1, h2]
    norm_num
  · rw [itmoSlopes_cex_eq]
    simp only [itmoCurve, xmin, xmax, ymin, ymax]
    rw [if_neg (by norm_num), if_neg (by norm_num), if_pos (by norm_num)]
    refine ⟨by norm_num, by norm_num, by norm_num, by norm_num, by norm_num,
      by norm_num, by norm_num⟩

/-- C3 amended: for positive slopes, both piecewise-linear curves are
non-decreasing on each side of their second breakpoint — the ITMO curve
(whose applied breakpoints, due to the variable reuse in the source, are
`s1 - 1` and `s2 - 1`) is non-decreasing on all inputs below `s2 - 1` and on
all inputs at or above both applied breakpoints, and is non-decreasing on
the whole valid luma PQ domain `[0.0623, 0.5081]` for the all-black frame
statistics `p = (1, 0, 0)`, `wB = wC = 0.5`; the TMO curve is non-decreasing
on either side of its second breakpoint `0.4597` — but, per the
counterexample, neither curve is non-decreasing across its second
breakpoint. -/
theorem curve_monotonicity_amended :
    (∀ s1 s2 s3 y y' : ℝ, 0 < s1 → 0 < s2 → y ≤ y' → y' < s2 - 1 →
      itmoCurve s1 s2 s3 y ≤ itmoCurve s1 s2 s3 y') ∧
    (∀ s1 s2 s3 y y' : ℝ, 0 < s3 → s1 - 1 ≤ y → s2 - 1 ≤ y → y ≤ y' →
      itmoCurve s1 s2 s3 y ≤ itmoCurve s1 s2 s3 y') ∧
    (∀ y y' : ℝ, y ≤ y' → y' < 4597 / 10000 → tmoCurvePL y ≤ tmoCurvePL y') ∧
    (∀ y y' : ℝ, 4597 / 10000 ≤ y → y ≤ y' → tmoCurvePL y ≤ tmoCurvePL y') ∧
    (∀ y y' : ℝ, (xmin : ℝ) ≤ y → y ≤ y' → y' ≤ xmax →
      itmoCurve (itmoSlopes (1 : ℝ) 0 0 (1 / 2) (1 / 2)).1
          (itmoSlopes (1 : ℝ) 0 0 (1 / 2) (1 / 2)).2.1
          (itmoSlopes (1 : ℝ) 0 0 (1 / 2) (1 / 2)).2.2 y ≤
        itmoCurve (itmoSlopes (1 : ℝ) 0 0 (1 / 2) (1 / 2)).1
          (itmoSlopes (1 : ℝ) 0 0 (1 / 2) (1 / 2)).2.1
          (itmoSlopes (1 : ℝ) 0 0 (1 / 2) (1 / 2)).2.2 y') := by
  refine ⟨?_, ?_, ?_, ?_, ?_⟩
  · intro s1 s2 s3 y y' hs1 hs2 hyy hy2
    simp only [itmoCurve]
    split_ifs with h1 h2 h3 h4 <;> try linarith
    · nlinarith
    · nlinarith [mul_pos hs1 (sub_pos.2 h1), mul_nonneg hs2.le (sub_nonneg.2 (le_of_not_lt h2))]
    · nlinarith
  · intro s1 s2 s3 y y' hs3 hb1 hb2 hyy
    simp only [itmoCurve]
    split_ifs with h1 h2 h3 h4 <;> try linarith
    nlinarith
  · intro y y' hyy hy2
    simp only [tmoCurvePL]
    split_ifs with h1 h2 h3 h4 <;> try linarith
  · intro y y' hy1 hyy
    simp only [tmoCurvePL]
    split_ifs with h1 h2 h3 h4 <;> try linarith
  · intro y y' hy0 hyy hy1
    rw [itmoSlopes_allblack_eq]
    simp only [itmoCurve, xmin, xmax, ymin, ymax] at hy0 hy1 ⊢
    have hb1 : (y : ℝ) < 78102251470185240809570861842 / 29709191585950031234261851555 - 1 := by
      nlinarith
    have hb1' : (y' : ℝ) < 78102251470185240809570861842 / 29709191585950031234261851555 - 1 := by
      nlinarith
    rw [if_pos hb1, if_pos hb1']
    nlinarith

/-- Witness for the amended C3 at concrete inputs `y = 0.1`, `y' = 0.2`. -/
theorem curve_monotonicity_amended_witness :
    tmoCurvePL ((1 : ℝ) / 10) ≤ tmoCurvePL ((2 : ℝ) / 10) :=
  curve_monotonicity_amended.2.2.1 (1 / 10) (2 / 10) (by norm_num) (by norm_num)

/-! Claim C2. -/

theorem rpow_clip01_mem (x e : ℝ) (he : 0 ≤ e) :
    0 ≤ clipv x 0 1 ^ e ∧ clipv x 0 1 ^ e ≤ 1 :=
  ⟨Real.rpow_nonneg (le_clipv_lo x 0 1 (by norm_num)) e,
   Real.rpow_le_one (le_clipv_lo x 0 1 (by norm_num)) (clipv_le_hi x 0 1) he⟩

/-- C2: for every frame statistic and pixel, the ITMO's per-channel PQ
values immediately before the BT.709-to-BT.2020 gamut matrix lie in
`[hDR_Min_PQ, hDR_Max_PQ] = [0.0215, 0.7518]`, its final BT.2020 output lies
in `[0, 1]` in every channel, and for every HDR input (and positive display
gamma, with 2.2 the declared default) the TMO's final gamma-encoded output
lies in `[0, 1]` in every channel. -/
theorem range_containment :
    (∀ (s1 s2 s3 : ℝ) (d : ℕ) (r g b v : ℝ),
      hDR_Min_PQ ≤ chan_HDR_PQ_cl s1 s2 s3 d r g b v ∧
        chan_HDR_PQ_cl s1 s2 s3 d r g b v ≤ hDR_Max_PQ) ∧
    (∀ (s1 s2 s3 : ℝ) (d : ℕ) (r g b : ℝ),
      (0 ≤ (itmoPixel s1 s2 s3 d r g b).1 ∧ (itmoPixel s1 s2 s3 d r g b).1 ≤ 1) ∧
      (0 ≤ (itmoPixel s1 s2 s3 d r g b).2.1 ∧ (itmoPixel s1 s2 s3 d r g b).2.1 ≤ 1) ∧
      (0 ≤ (itmoPixel s1 s2 s3 d r g b).2.2 ∧ (itmoPixel s1 s2 s3 d r g b).2.2 ≤ 1)) ∧
    (∀ (k : MappingCurveKind) (alpha gammaSDR r g b : ℝ), 0 < gammaSDR →
      (0 ≤ (tmoPixel k alpha gammaSDR r g b).1 ∧ (tmoPixel k alpha gammaSDR r g b).1 ≤ 1) ∧
      (0 ≤ (tmoPixel k alpha gammaSDR r g b).2.1 ∧ (tmoPixel k alpha gammaSDR r g b).2.1 ≤ 1) ∧
      (0 ≤ (tmoPixel k alpha gammaSDR r g b).2.2 ∧ (tmoPixel k alpha gammaSDR r g b).2.2 ≤ 1)) := by
  refine ⟨?_, ?_, ?_⟩
  · intro s1 s2 s3 d r g b v
    exact ⟨le_clipv_lo _ _ _ (by norm_num [hDR_Min_PQ, hDR_Max_PQ]), clipv_le_hi _ _ _⟩
  · intro s1 s2 s3 d r g b
    simp only [itmoPixel]
    exact ⟨⟨le_clipv_lo _ _ _ (by norm_num), clipv_le_hi _ _ _⟩,
      ⟨le_clipv_lo _ _ _ (by norm_num), clipv_le_hi _ _ _⟩,
      ⟨le_clipv_lo _ _ _ (by norm_num), clipv_le_hi _ _ _⟩⟩
  · intro k alpha gammaSDR r g b hg
    have he : (0 : ℝ) ≤ 1 / gammaSDR := by positivity
    simp only [tmoPixel]
    exact ⟨rpow_clip01_mem _ _ he, rpow_clip01_mem _ _ he, rpow_clip01_mem _ _ he⟩

/-- Witness for C2 at a concrete frame statistic, pixel and gamma. -/
theorem range_containment_witness :
    0 ≤ (tmoPixel MappingCurveKind.piecewiseLinear 1 (11 / 5) (1 / 2) (1 / 2) (1 / 2)).1 ∧
    hDR_Min_PQ ≤ chan_HDR_PQ_cl 1 1 1 8 0 0 0 0 :=
  ⟨(range_containment.2.2 MappingCurveKind.piecewiseLinear 1 (11 / 5) (1 / 2) (1 / 2) (1 / 2)
      (by norm_num)).1.1,
   (range_containment.1 1 1 1 8 0 0 0 0).1⟩

/-! Claim C9. -/

theorem toPQ_pos (L : ℝ) : 0 < toPQ L := by
  simp only [toPQ, l_max_PQ, m_PQ, n_PQ, c1_PQ, c2_PQ, c3_PQ]
  have ht0 : 0 ≤ (max (L / 10000) 0) ^ (0.1593 : ℝ) :=
    Real.rpow_nonneg (le_max_right _ _) _
  exact Real.rpow_pos_of_pos (div_pos (by nlinarith) (by nlinarith)) _

/-- C9: for an all-zero 8-bit pixel the ITMO's luma display value before PQ
encoding is exactly the reference minimum `disp_Min = 0.1` nits, the
PQ-encoded luma is strictly positive, and the luma-expansion-ratio division
`lhdr_PQ / l_disp_PQ` has a non-zero denominator (so it never divides by
zero; this holds for frames of any size because the computation is
per-pixel, and it is independent of the weights `wB = wC = 0.5`, which only
enter the numerator's slopes). -/
theorem all_black_displays_floor :
    L_disp 8 0 0 0 = 0.1 ∧ disp_Min = 0.1 ∧
    0 < l_disp_PQ 8 0 0 0 ∧ l_disp_PQ 8 0 0 0 ≠ 0 := by
  have h1 : img_normalized 8 (0 : ℝ) = 0 := by
    norm_num [img_normalized, clipv, minValueY, maxValueY, max_def, min_def]
  have h2 : img_light 8 (0 : ℝ) = 0 := by
    rw [img_light, h1]
    exact Real.zero_rpow (by norm_num)
  have h3 : L_disp 8 0 0 0 = 0.1 := by
    simp [L_disp, y_SDR, h2, disp_Min, disp_Max]
  have h4 : 0 < l_disp_PQ 8 0 0 0 := toPQ_pos _
  exact ⟨h3, rfl, h4, ne_of_gt h4⟩

/-! Claim C5. -/

theorem midEdges_cons₃ {α : Type*} [LinearOrderedField α] (a b c : α) (l : List α) :
    midEdges (a :: b :: c :: l) = (a + b) / 2 :: midEdges (b :: c :: l) := rfl

theorem midEdges_ne_nil {α : Type*} [LinearOrderedField α] (a b : α) (l : List α) :
    midEdges (a :: b :: l) ≠ [] := by
  cases l <;> simp [midEdges]

/-- Interior edges are the midpoints of adjacent centers: if positions `i`
and `i+1` of the center list hold `u` and `v`, position `i` of `midEdges`
holds `(u + v) / 2`. -/
theorem midEdges_get? {α : Type*} [LinearOrderedField α] :
    ∀ (l : List α) (i : ℕ) (u v : α), l.get? i = some u → l.get? (i + 1) = some v →
      (midEdges l).get? i = some ((u + v) / 2)
  | [], i, u, v, h1, _ => by simp at h1
  | [_], i, u, v, h1, h2 => by
      cases i with
      | zero => simp at h2
      | succ j => simp at h1
  | a :: b :: l, i, u, v, h1, h2 => by
      cases i with
      | zero =>
          simp only [List.get?] at h1 h2
          cases l with
          | nil =>
              simp only [midEdges, List.get?]
              rw [Option.some.injEq] at h1 h2
              rw [h1, h2]
          | cons c l' =>
              rw [midEdges_cons₃]
              simp only [List.get?]
              rw [Option.some.injEq] at h1 h2
              rw [h1, h2]
      | succ j =>
          simp only [List.get?] at h1 h2
          cases l with
          | nil =>
              cases j with
              | zero => simp at h2
              | succ k => simp at h1
          | cons c l' =>
              rw [midEdges_cons₃]
              simp only [List.get?]
              exact midEdges_get? (b :: c :: l') j u v h1 h2

/-- The final edge mirrors the last inter-center half-gap beyond the last
center. -/
theorem midEdges_getLast_snoc {α : Type*} [LinearOrderedField α] :
    ∀ (l : List α) (a u v : α),
      (midEdges (a :: (l ++ [u, v]))).getLast? = some (v + (v - u) / 2)
  | [], a, u, v => by
      simp only [List.nil_append]
      rw [midEdges_cons₃]
      simp [midEdges, List.getLast?]
  | b :: l', a, u, v => by
      have heq : midEdges (a :: ((b :: l') ++ [u, v])) =
          (a + b) / 2 :: midEdges (b :: (l' ++ [u, v])) := by
        cases l' <;> rfl
      rw [heq]
      obtain ⟨m, ms, hm⟩ : ∃ m ms, midEdges (b :: (l' ++ [u, v])) = m :: ms := by
        rcases h : midEdges (b :: (l' ++ [u, v])) with _ | ⟨m, ms⟩
        · exfalso
          have hlast := midEdges_getLast_snoc l' b u v
          rw [h] at hlast
          simp at hlast
        · exact ⟨m, ms, rfl⟩
      rw [hm, List.getLast?_cons_cons, ← hm]
      exact midEdges_getLast_snoc l' b u v

/-- The last edge of `histEdges` on two or more centers is
`c[-1] + half[-1]` where `half[-1]` is the last inter-center half-gap. -/
theorem histEdges_getLast_snoc {α : Type*} [LinearOrderedField α] :
    ∀ (l : List α) (u v : α),
      (histEdges (l ++ [u, v])).getLast? = some (v + (v - u) / 2)
  | [], u, v => by
      simp [histEdges, midEdges, List.getLast?]
  | a :: l', u, v => by
      obtain ⟨m, ms, hm⟩ : ∃ m ms, l' ++ [u, v] = m :: ms := by
        cases l' with
        | nil => exact ⟨u, [v], rfl⟩
        | cons x xs => exact ⟨x, xs ++ [u, v], rfl⟩
      have heq : histEdges ((a :: l') ++ [u, v]) =
          (a - (m - a) / 2) :: midEdges (a :: m :: ms) := by
        rw [List.cons_append, hm]
        rfl
      rw [heq]
      obtain ⟨e, es, he⟩ : ∃ e es, midEdges (a :: m :: ms) = e :: es :=
        List.exists_cons_of_ne_nil (midEdges_ne_nil a m ms)
      rw [he, List.getLast?_cons_cons, ← he, ← hm]
      exact midEdges_getLast_snoc l' a u v

/-- C5: the histogram estimator places interior edges at the midpoints of
adjacent centers and the two outer edges at the nearest interior half-gap
beyond the extreme centers (so centers `[1,3,7]` produce edges `[0,2,5,9]`);
a single center uses the fixed half-width 0.5; zero centers give a
zero-length result; and bin membership is left-inclusive/right-exclusive
except at the final edge, which is inclusive (samples `[0,2,5,9,10]` over
centers `[1,3,7]` count as `[1,1,2]`: the sample 2 falls in the second bin,
9 falls in the last bin, 10 falls outside). -/
theorem histogram_edges_spec :
    (histEdges ([1, 3, 7] : List ℝ) = [0, 2, 5, 9]) ∧
    (∀ c : ℝ, histEdges [c] = [c - 0.5, c + 0.5]) ∧
    (∀ xs : List ℝ, histogramModel xs ([] : List ℝ) = []) ∧
    (∀ (a b : ℝ) (l : List ℝ),
      (histEdges (a :: b :: l)).head? = some (a - (b - a) / 2)) ∧
    (∀ (c : List ℝ) (i : ℕ) (u v : ℝ), c.get? i = some u → c.get? (i + 1) = some v →
      (histEdges c).get? (i + 1) = some ((u + v) / 2)) ∧
    (∀ (l : List ℝ) (u v : ℝ),
      (histEdges (l ++ [u, v])).getLast? = some (v + (v - u) / 2)) ∧
    (histogramModel ([0, 2, 5, 9, 10] : List ℝ) [1, 3, 7] = [1, 1, 2]) := by
  refine ⟨?_, fun c => rfl, fun xs => rfl, fun a b l => rfl, ?_, histEdges_getLast_snoc, ?_⟩
  · norm_num [histEdges, midEdges]
  · intro c i u v h1 h2
    rcases c with _ | ⟨c0, c⟩
    · simp at h1
    rcases c with _ | ⟨c1, rest⟩
    · rcases i with _ | j
      · simp at h2
      · simp at h1
    · have hE : histEdges (c0 :: c1 :: rest) =
          (c0 - (c1 - c0) / 2) :: midEdges (c0 :: c1 :: rest) := rfl
      rw [hE]
      simp only [List.get?]
      exact midEdges_get? _ i u v h1 h2
  · norm_num [histogramModel, histEdges, midEdges, histCounts, List.countP, List.countP.go]

/-- Witness for C5: the second edge over centers `[1,3,7]` is the midpoint
of 1 and 3. -/
theorem histogram_edges_spec_witness :
    (histEdges ([1, 3, 7] : List ℝ)).get? 1 = some ((1 + 3) / 2) :=
  histogram_edges_spec.2.2.2.2.1 [1, 3, 7] 0 1 3 rfl rfl

/-! Claim C10. -/

theorem chain'_le_head_getLast {α : Type*} [LinearOrderedField α] :
    ∀ (l : List α) (a x : α), List.Chain' (· ≤ ·) (a :: l) →
      (a :: l).getLast? = some x → a ≤ x
  | [], a, x, _, hx => by
      simp only [List.getLast?_singleton, Option.some.injEq] at hx
      exact hx ▸ le_refl a
  | b :: l, a, x, hc, hx => by
      rw [List.chain'_cons] at hc
      rw [List.getLast?_cons_cons] at hx
      exact hc.1.trans (chain'_le_head_getLast l b x hc.2 hx)

theorem countP_interval_split {α : Type*} [LinearOrderedField α]
    (xs : List α) (e0 e1 eL : α) (h01 : e0 ≤ e1) (h1L : e1 ≤ eL) :
    xs.countP (fun x => decide (e0 ≤ x) && decide (x ≤ eL)) =
      xs.countP (fun x => decide (e0 ≤ x) && decide (x < e1)) +
        xs.countP (fun x => decide (e1 ≤ x) && decide (x ≤ eL)) := by
  induction xs with
  | nil => simp
  | cons y ys ih =>
      simp only [List.countP_cons, ih]
      rcases lt_or_le y e1 with hy | hy
      · rcases le_or_lt e0 y with h2 | h2
        · have hyL : y ≤ eL := (hy.trans_le h1L).le
          simp [hy, h2, not_le.2 hy, hyL]
          omega
        · simp [not_le.2 h2, not_le.2 (h2.trans_le h01)]
      · rcases le_or_lt y eL with h2 | h2
        · simp [hy, h2, not_lt.2 hy, h01.trans hy]
          omega
        · simp [not_le.2 h2, not_lt.2 hy]

/-- The total count of the histogram over a sorted edge list is the number
of samples inside the outermost edges. -/
theorem histCounts_sum {α : Type*} [LinearOrderedField α] :
    ∀ (es : List α) (e0 : α) (xs : List α), List.Chain' (· ≤ ·) (e0 :: es) → es ≠ [] →
      ∀ eL, (e0 :: es).getLast? = some eL →
      (histCounts xs (e0 :: es)).sum =
        xs.countP (fun x => decide (e0 ≤ x) && decide (x ≤ eL))
  | [], _, _, _, hne, _, _ => absurd rfl hne
  | [e1], e0, xs, _, _, eL, hL => by
      rw [List.getLast?_cons_cons, List.getLast?_singleton, Option.some.injEq] at hL
      subst hL
      simp [histCounts]
  | e1 :: e2 :: es, e0, xs, hc, _, eL, hL => by
      rw [List.chain'_cons] at hc
      rw [List.getLast?_cons_cons] at hL
      have h1L : e1 ≤ eL := chain'_le_head_getLast _ e1 eL hc.2 hL
      have hsum := histCounts_sum (e2 :: es) e1 xs hc.2 (by simp) eL hL
      simp only [histCounts, List.sum_cons, hsum]
      rw [countP_interval_split xs e0 e1 eL hc.1 h1L]

theorem midEdges_head? {α : Type*} [LinearOrderedField α] (a b : α) (l : List α) :
    (midEdges (a :: b :: l)).head? = some ((a + b) / 2) := by
  cases l <;> rfl

theorem histEdges_head? {α : Type*} [LinearOrderedField α] (a b : α) (l : List α) :
    (histEdges (a :: b :: l)).head? = some (a - (b - a) / 2) := rfl

theorem midEdges_chain_le {α : Type*} [LinearOrderedField α] :
    ∀ (l : List α) (a b : α), List.Chain' (· < ·) (a :: b :: l) →
      List.Chain' (· ≤ ·) (midEdges (a :: b :: l))
  | [], a, b, hc => by
      rw [List.chain'_cons] at hc
      simp only [midEdges, List.chain'_cons, List.chain'_singleton, and_true]
      linarith [hc.1]
  | c :: l, a, b, hc => by
      rw [List.chain'_cons] at hc
      have hbc : b < c := (List.chain'_cons.1 hc.2).1
      rw [midEdges_cons₃]
      obtain ⟨m, ms, hm⟩ : ∃ m ms, midEdges (b :: c :: l) = m :: ms :=
        List.exists_cons_of_ne_nil (midEdges_ne_nil b c l)
      have hmval : m = (b + c) / 2 := by
        have hh := midEdges_head? b c l
        rw [hm] at hh
        simpa using hh
      rw [hm, List.chain'_cons, ← hm]
      refine ⟨?_, midEdges_chain_le l b c hc.2⟩
      rw [hmval]
      linarith [hc.1, hbc]

theorem histEdges_chain_le {α : Type*} [LinearOrderedField α] :
    ∀ (c : List α), List.Chain' (· < ·) c → List.Chain' (· ≤ ·) (histEdges c)
  | [], _ => by simp [histEdges]
  | [c0], _ => by
      simp only [histEdges, List.chain'_cons, List.chain'_singleton, and_true]
      linarith
  | c0 :: c1 :: rest, hc => by
      have h01 : c0 < c1 := (List.chain'_cons.1 hc).1
      show List.Chain' (· ≤ ·) ((c0 - (c1 - c0) / 2) :: midEdges (c0 :: c1 :: rest))
      obtain ⟨m, ms, hm⟩ : ∃ m ms, midEdges (c0 :: c1 :: rest) = m :: ms :=
        List.exists_cons_of_ne_nil (midEdges_ne_nil c0 c1 rest)
      have hmval : m = (c0 + c1) / 2 := by
        have hh := midEdges_head? c0 c1 rest
        rw [hm] at hh
        simpa using hh
      rw [hm, List.chain'_cons, ← hm]
      refine ⟨?_, midEdges_chain_le rest c0 c1 hc⟩
      rw [hmval]
      linarith

theorem itmoCenters_chain : List.Chain' (· < ·) (itmoCenters : List ℝ) := by
  simp only [itmoCenters]
  rw [List.chain'_map]
  refine ((List.pairwise_lt_range 256).chain').imp ?_
  intro a b hab
  have hab' : (a : ℝ) < b := Nat.cast_lt.2 hab
  have hstep : (0 : ℝ) < ((xmax : ℝ) - xmin) / 255 := by norm_num [xmin, xmax]
  nlinarith

theorem range256_cons :
    List.range 256 = 0 :: 1 :: (List.range 254).map (Nat.succ ∘ Nat.succ) := by
  rw [show (256 : ℕ) = 255 + 1 from rfl, List.range_succ_eq_map,
    show (255 : ℕ) = 254 + 1 from rfl, List.range_succ_eq_map]
  simp [List.map_map]

theorem itmoCenters_cons :
    ∃ rest : List ℝ, (itmoCenters : List ℝ) =
      (0.0623 : ℝ) :: ((0.0623 : ℝ) + (0.5081 - 0.0623) / 255) :: rest := by
  refine ⟨(List.range 254).map
    ((fun (i : ℕ) => (xmin : ℝ) + (i : ℝ) * ((xmax - xmin) / 255)) ∘
      (Nat.succ ∘ Nat.succ)), ?_⟩
  simp only [itmoCenters, range256_cons, List.map_cons, List.map_map]
  norm_num [xmin, xmax]

theorem itmoCenters_snoc :
    (itmoCenters : List ℝ) =
      ((List.range 254).map (fun (i : ℕ) => (xmin : ℝ) + (i : ℝ) * ((xmax - xmin) / 255))) ++
      [(xmin : ℝ) + (254 : ℕ) * ((xmax - xmin) / 255),
       (xmin : ℝ) + (255 : ℕ) * ((xmax - xmin) / 255)] := by
  simp only [itmoCenters]
  rw [show (256 : ℕ) = 255 + 1 from rfl, List.range_succ,
    show (255 : ℕ) = 254 + 1 from rfl, List.range_succ, List.append_assoc]
  simp [List.map_append]

theorem itmoEdges_head :
    (histEdges (itmoCenters : List ℝ)).head? = some (13053 / 212500) := by
  obtain ⟨rest, hc⟩ := itmoCenters_cons
  rw [hc, histEdges_head?]
  norm_num

theorem itmoEdges_last :
    (histEdges (itmoCenters : List ℝ)).getLast? = some (108157 / 212500) := by
  rw [itmoCenters_snoc, histEdges_getLast_snoc]
  norm_num [xmin, xmax]

theorem pq_ratio_pos (t : ℝ) (h0 : 0 ≤ t) :
    0 < (18.8516 * t + 0.8359) / (18.6875 * t + 1) := by
  apply div_pos <;> nlinarith

theorem pq_ratio_le_one (t : ℝ) (h0 : 0 ≤ t) (h1 : t ≤ 1) :
    (18.8516 * t + 0.8359) / (18.6875 * t + 1) ≤ 1 := by
  rw [div_le_one (by nlinarith)]
  nlinarith

theorem pq_ratio_mono (t t' : ℝ) (h0 : 0 ≤ t) (h : t ≤ t') :
    (18.8516 * t + 0.8359) / (18.6875 * t + 1) ≤
      (18.8516 * t' + 0.8359) / (18.6875 * t' + 1) := by
  rw [div_le_div_iff₀ (by nlinarith) (by nlinarith)]
  nlinarith

/-- Lower bound on the PQ encoding of the display floor: `toPQ 0.1` is at
least the first histogram edge `13053/212500 ≈ 0.0614259`. -/
theorem toPQ_point1_ge : (13053 / 212500 : ℝ) ≤ toPQ 0.1 := by
  simp only [toPQ, l_max_PQ, m_PQ, n_PQ, c1_PQ, c2_PQ, c3_PQ]
  rw [show max ((0.1 : ℝ) / 10000) 0 = 1 / 100000 by rw [max_eq_left] <;> norm_num]
  set t0 := ((1 : ℝ) / 100000) ^ (0.1593 : ℝ) with ht0def
  have ht0eq : t0 = (10 : ℝ) ^ (-(1593 / 2000 : ℝ)) := by
    rw [ht0def, show ((1 : ℝ) / 100000) = (10 : ℝ) ^ ((-5 : ℤ) : ℝ) by
      rw [Real.rpow_intCast]; norm_num]
    rw [← Real.rpow_mul (by norm_num : (0 : ℝ) ≤ 10)]
    norm_num
  have ht0pos : 0 < t0 := by
    rw [ht0eq]
    exact Real.rpow_pos_of_pos (by norm_num) _
  have ht0le1 : t0 ≤ 1 := by
    rw [ht0eq]
    exact Real.rpow_le_one_of_one_le_of_nonpos (by norm_num) (by norm_num)
  have htlo : (1597 / 10000 : ℝ) ≤ t0 := by
    have h2000 : t0 ^ (2000 : ℕ) = ((10 : ℝ) ^ (1593 : ℕ))⁻¹ := by
      rw [ht0eq, ← Real.rpow_natCast ((10 : ℝ) ^ (-(1593 / 2000 : ℝ))) 2000,
        ← Real.rpow_mul (by norm_num : (0 : ℝ) ≤ 10),
        show (-(1593 / 2000 : ℝ)) * ((2000 : ℕ) : ℝ) = ((-1593 : ℤ) : ℝ) by
          push_cast; ring,
        Real.rpow_intCast]
      norm_num
    refine le_of_pow_le_pow_left₀ (by norm_num : (2000 : ℕ) ≠ 0) ht0pos.le ?_
    rw [h2000]
    norm_num
  have hA0pos := pq_ratio_pos t0 ht0pos.le
  have hA0le1 := pq_ratio_le_one t0 ht0pos.le ht0le1
  have hAlo : (384650052 / 398439375 : ℝ) ≤
      (18.8516 * t0 + 0.8359) / (18.6875 * t0 + 1) := by
    have h := pq_ratio_mono (1597 / 10000) t0 (by norm_num) htlo
    calc (384650052 / 398439375 : ℝ)
        = (18.8516 * (1597 / 10000) + 0.8359) / (18.6875 * (1597 / 10000) + 1) := by
          norm_num
      _ ≤ _ := h
  calc (13053 / 212500 : ℝ)
      ≤ (384650052 / 398439375 : ℝ) ^ (79 : ℕ) := by norm_num
    _ ≤ ((18.8516 * t0 + 0.8359) / (18.6875 * t0 + 1)) ^ (79 : ℕ) :=
        pow_le_pow_left₀ (by norm_num) hAlo 79
    _ = ((18.8516 * t0 + 0.8359) / (18.6875 * t0 + 1)) ^ ((79 : ℕ) : ℝ) :=
        (Real.rpow_natCast _ 79).symm
    _ ≤ ((18.8516 * t0 + 0.8359) / (18.6875 * t0 + 1)) ^ (78.8438 : ℝ) :=
        Real.rpow_le_rpow_of_exponent_ge hA0pos hA0le1 (by norm_num)

/-- Upper bound on the PQ encoding of the display peak: `toPQ 100` is at
most the last histogram edge `108157/212500 ≈ 0.5089741`. -/
theorem toPQ_100_le : toPQ 100 ≤ 108157 / 212500 := by
  simp only [toPQ, l_max_PQ, m_PQ, n_PQ, c1_PQ, c2_PQ, c3_PQ]
  rw [show max ((100 : ℝ) / 10000) 0 = 1 / 100 by rw [max_eq_left] <;> norm_num]
  set t1 := ((1 : ℝ) / 100) ^ (0.1593 : ℝ) with ht1def
  have ht1eq : t1 = (10 : ℝ) ^ (-(1593 / 5000 : ℝ)) := by
    rw [ht1def, show ((1 : ℝ) / 100) = (10 : ℝ) ^ ((-2 : ℤ) : ℝ) by
      rw [Real.rpow_intCast]; norm_num]
    rw [← Real.rpow_mul (by norm_num : (0 : ℝ) ≤ 10)]
    norm_num
  have ht1pos : 0 < t1 := by
    rw [ht1eq]
    exact Real.rpow_pos_of_pos (by norm_num) _
  have ht1nonneg : 0 ≤ t1 := ht1pos.le
  have ht1le1 : t1 ≤ 1 := by
    rw [ht1eq]
    exact Real.rpow_le_one_of_one_le_of_nonpos (by norm_num) (by norm_num)
  have hthi : t1 ≤ 4802 / 10000 := by
    have h5000 : t1 ^ (5000 : ℕ) = ((10 : ℝ) ^ (1593 : ℕ))⁻¹ := by
      rw [ht1eq, ← Real.rpow_natCast ((10 : ℝ) ^ (-(1593 / 5000 : ℝ))) 5000,
        ← Real.rpow_mul (by norm_num : (0 : ℝ) ≤ 10),
        show (-(1593 / 5000 : ℝ)) * ((5000 : ℕ) : ℝ) = ((-1593 : ℤ) : ℝ) by
          push_cast; ring,
        Real.rpow_intCast]
      norm_num
    refine le_of_pow_le_pow_left₀ (by norm_num : (5000 : ℕ) ≠ 0) (by norm_num) ?_
    rw [h5000]
    norm_num
  have hA1pos := pq_ratio_pos t1 ht1nonneg
  have hA1le1 := pq_ratio_le_one t1 ht1nonneg ht1le1
  have hAhi : (18.8516 * t1 + 0.8359) / (18.6875 * t1 + 1) ≤
      988843832 / 997373750 := by
    have h := pq_ratio_mono t1 (4802 / 10000) ht1nonneg hthi
    calc (18.8516 * t1 + 0.8359) / (18.6875 * t1 + 1)
        ≤ (18.8516 * (4802 / 10000) + 0.8359) / (18.6875 * (4802 / 10000) + 1) := h
      _ = 988843832 / 997373750 := by norm_num
  have hAexp : ((18.8516 * t1 + 0.8359) / (18.6875 * t1 + 1)) ^ (78.8438 : ℝ) ≤
      ((18.8516 * t1 + 0.8359) / (18.6875 * t1 + 1)) ^ ((394 : ℝ) / 5) :=
    Real.rpow_le_rpow_of_exponent_ge hA1pos hA1le1 (by norm_num)
  have hbase : ((18.8516 * t1 + 0.8359) / (18.6875 * t1 + 1)) ^ ((394 : ℝ) / 5) ≤
      (988843832 / 997373750 : ℝ) ^ ((394 : ℝ) / 5) :=
    Real.rpow_le_rpow hA1pos.le hAhi (by norm_num)
  have hnum : (988843832 / 997373750 : ℝ) ^ ((394 : ℝ) / 5) ≤ 108157 / 212500 := by
    refine le_of_pow_le_pow_left₀ (by norm_num : (5 : ℕ) ≠ 0) (by norm_num) ?_
    rw [← Real.rpow_natCast ((988843832 / 997373750 : ℝ) ^ ((394 : ℝ) / 5)) 5,
      ← Real.rpow_mul (by norm_num : (0 : ℝ) ≤ 988843832 / 997373750),
      show ((394 : ℝ) / 5) * ((5 : ℕ) : ℝ) = ((394 : ℕ) : ℝ) by push_cast; ring,
      Real.rpow_natCast]
    norm_num
  exact (hAexp.trans hbase).trans hnum

theorem toPQ_mono {L L' : ℝ} (h : L ≤ L') : toPQ L ≤ toPQ L' := by
  simp only [toPQ, l_max_PQ, m_PQ, n_PQ, c1_PQ, c2_PQ, c3_PQ]
  have h1 : max (L / 10000) 0 ≤ max (L' / 10000) 0 :=
    max_le_max (by linarith) le_rfl
  have h2 : (max (L / 10000) 0) ^ (0.1593 : ℝ) ≤ (max (L' / 10000) 0) ^ (0.1593 : ℝ) :=
    Real.rpow_le_rpow (le_max_right _ _) h1 (by norm_num)
  have h3 := Real.rpow_nonneg (le_max_right (L / 10000) 0) (0.1593 : ℝ)
  exact Real.rpow_le_rpow (pq_ratio_pos _ h3).le (pq_ratio_mono _ _ h3 h2) (by norm_num)

theorem img_normalized8_mem (v : ℝ) :
    0 ≤ img_normalized 8 v ∧ img_normalized 8 v ≤ 1 := by
  have hlo := le_clipv_lo v (minValueY 8 : ℝ) (maxValueY 8) (by norm_num [minValueY, maxValueY])
  have hhi := clipv_le_hi v (minValueY 8 : ℝ) (maxValueY 8)
  norm_num [minValueY, maxValueY] at hlo hhi
  simp only [img_normalized]
  norm_num [minValueY, maxValueY]
  constructor <;> linarith

theorem img_light8_mem (v : ℝ) : 0 ≤ img_light 8 v ∧ img_light 8 v ≤ 1 := by
  obtain ⟨h0, h1⟩ := img_normalized8_mem v
  exact ⟨Real.rpow_nonneg h0 _, Real.rpow_le_one h0 h1 (by norm_num)⟩

theorem L_disp8_mem (r g b : ℝ) : 0.1 ≤ L_disp 8 r g b ∧ L_disp 8 r g b ≤ 100 := by
  obtain ⟨hr0, hr1⟩ := img_light8_mem r
  obtain ⟨hg0, hg1⟩ := img_light8_mem g
  obtain ⟨hb0, hb1⟩ := img_light8_mem b
  simp only [L_disp, y_SDR, disp_Min, disp_Max]
  constructor <;> nlinarith

theorem l_disp_PQ8_bounds (r g b : ℝ) :
    (13053 / 212500 : ℝ) ≤ l_disp_PQ 8 r g b ∧ l_disp_PQ 8 r g b ≤ 108157 / 212500 := by
  obtain ⟨h1, h2⟩ := L_disp8_mem r g b
  simp only [l_disp_PQ]
  exact ⟨toPQ_point1_ge.trans (toPQ_mono h1), (toPQ_mono h2).trans toPQ_100_le⟩

/-- C10: for every non-empty 8-bit input frame, every PQ-encoded luma sample
lies within the histogram's outermost edges, so the total histogram count
equals the number of pixels, the zero-total fallback branch is never taken,
and the region probabilities satisfy `p1 + p2 + p3 = 1`. -/
theorem itmo_histogram_partition (frame : List (ℝ × ℝ × ℝ)) (hne : frame ≠ []) :
    (∀ s ∈ itmoSamples frame,
      (∀ e ∈ (histEdges (itmoCenters : List ℝ)).head?, e ≤ s) ∧
      (∀ e ∈ (histEdges (itmoCenters : List ℝ)).getLast?, s ≤ e)) ∧
    (n_light (itmoSamples frame)).sum = frame.length ∧
    ((n_light (itmoSamples frame)).map (Nat.cast : ℕ → ℝ)).sum ≠ 0 ∧
    (itmoProbs ((n_light (itmoSamples frame)).map (Nat.cast : ℕ → ℝ))).1 +
      (itmoProbs ((n_light (itmoSamples frame)).map (Nat.cast : ℕ → ℝ))).2.1 +
      (itmoProbs ((n_light (itmoSamples frame)).map (Nat.cast : ℕ → ℝ))).2.2 = 1 := by
  have hsample : ∀ s ∈ itmoSamples frame,
      (13053 / 212500 : ℝ) ≤ s ∧ s ≤ 108157 / 212500 := by
    intro s hs
    simp only [itmoSamples, List.mem_map] at hs
    obtain ⟨p, _, rfl⟩ := hs
    exact l_disp_PQ8_bounds p.1 p.2.1 p.2.2
  have htotal : (n_light (itmoSamples frame)).sum = frame.length := by
    obtain ⟨rest, hc⟩ := itmoCenters_cons
    have hchainE : List.Chain' (· ≤ ·) (histEdges (itmoCenters : List ℝ)) :=
      histEdges_chain_le _ itmoCenters_chain
    have hlast := itmoEdges_last
    have hE : histEdges (itmoCenters : List ℝ) =
        ((0.0623 : ℝ) - (((0.0623 : ℝ) + (0.5081 - 0.0623) / 255) - 0.0623) / 2) ::
          midEdges ((0.0623 : ℝ) :: ((0.0623 : ℝ) + (0.5081 - 0.0623) / 255) :: rest) := by
      rw [hc]
      rfl
    rw [hE] at hchainE hlast
    have hcounts : n_light (itmoSamples frame) =
        histCounts (itmoSamples frame) (histEdges (itmoCenters : List ℝ)) := rfl
    rw [hcounts, hE]
    rw [histCounts_sum _ _ _ hchainE (midEdges_ne_nil _ _ _) _ hlast]
    have hlen : (itmoSamples frame).length = frame.length := List.length_map _ _
    rw [← hlen]
    rw [List.countP_eq_length]
    intro x hx
    obtain ⟨hx1, hx2⟩ := hsample x hx
    simp only [Bool.and_eq_true, decide_eq_true_eq]
    constructor
    · linarith
    · linarith
  refine ⟨?_, htotal, ?_, ?_⟩
  · intro s hs
    obtain ⟨hx1, hx2⟩ := hsample s hs
    constructor
    · intro e he
      rw [itmoEdges_head] at he
      simp only [Option.mem_def, Option.some.injEq] at he
      rw [← he]
      exact hx1
    · intro e he
      rw [itmoEdges_last] at he
      simp only [Option.mem_def, Option.some.injEq] at he
      rw [← he]
      exact hx2
  · have hcast : ((n_light (itmoSamples frame)).map (Nat.cast : ℕ → ℝ)).sum =
        ((n_light (itmoSamples frame)).sum : ℝ) := (Nat.cast_list_sum _).symm
    rw [hcast, htotal]
    have : 0 < frame.length := List.length_pos.2 hne
    exact_mod_cast this.ne'
  · have hcast : ((n_light (itmoSamples frame)).map (Nat.cast : ℕ → ℝ)).sum =
        ((n_light (itmoSamples frame)).sum : ℝ) := (Nat.cast_list_sum _).symm
    have htot : ((n_light (itmoSamples frame)).map (Nat.cast : ℕ → ℝ)).sum ≠ 0 := by
      rw [hcast, htotal]
      have : 0 < frame.length := List.length_pos.2 hne
      exact_mod_cast this.ne'
    set l := (n_light (itmoSamples frame)).map (Nat.cast : ℕ → ℝ) with hl
    have hsplit : (l.take 35).sum + ((l.drop 35).take 157).sum + (l.drop 192).sum
        = l.sum := by
      have h1 := congrArg List.sum (List.take_append_drop 35 l)
      rw [List.sum_append] at h1
      have h2 := congrArg List.sum (List.take_append_drop 157 (l.drop 35))
      rw [List.sum_append, List.drop_drop,
        show (35 + 157 : ℕ) = 192 from rfl] at h2
      linarith
    simp only [itmoProbs, if_neg htot, show (192 - 35 : ℕ) = 157 from rfl]
    rw [sum_map_div, sum_map_div, sum_map_div, div_add_div_same, div_add_div_same,
      hsplit, div_self htot]

/-- Witness for C10 at the concrete one-pixel all-black frame. -/
theorem itmo_histogram_partition_witness :
    (∀ s ∈ itmoSamples [((0 : ℝ), (0 : ℝ), (0 : ℝ))],
      (∀ e ∈ (histEdges (itmoCenters : List ℝ)).head?, e ≤ s) ∧
      (∀ e ∈ (histEdges (itmoCenters : List ℝ)).getLast?, s ≤ e)) ∧
    (n_light (itmoSamples [((0 : ℝ), (0 : ℝ), (0 : ℝ))])).sum =
      [((0 : ℝ), (0 : ℝ), (0 : ℝ))].length ∧
    ((n_light (itmoSamples [((0 : ℝ), (0 : ℝ), (0 : ℝ))])).map
      (Nat.cast : ℕ → ℝ)).sum ≠ 0 ∧
    (itmoProbs ((n_light (itmoSamples [((0 : ℝ), (0 : ℝ), (0 : ℝ))])).map
        (Nat.cast : ℕ → ℝ))).1 +
      (itmoProbs ((n_light (itmoSamples [((0 : ℝ), (0 : ℝ), (0 : ℝ))])).map
        (Nat.cast : ℕ → ℝ))).2.1 +
      (itmoProbs ((n_light (itmoSamples [((0 : ℝ), (0 : ℝ), (0 : ℝ))])).map
        (Nat.cast : ℕ → ℝ))).2.2 = 1 :=
  itmo_histogram_partition [((0 : ℝ), (0 : ℝ), (0 : ℝ))] (by simp)
